import Mathlib

/-!
Shallow embedding of the extension catalog synchronization engine
(`VSXExtensionsModel`, packages/vsx-registry, browser side).

Asynchronous operations are embedded as pure functions over an explicit
`ModelState`, parameterised by the response the external registry delivers
at the suspension point (`await`).  Each embedded operation returns the new
state together with the list of change events it fires and the log entries
it writes, so that claims about "no observable effect" are equalities on
those components.  The cooperative cancellation token of a search cycle is
embedded as a natural number epoch: the token of a cycle is the value of
`searchEpoch` when the cycle started, and `isCancellationRequested` is
`token != searchEpoch` (starting a new cycle increments the epoch, which
cancels every older token).
-/

namespace VsxRegistry

/-- Mutable data carried by one extension record (display metadata, the
installed flag and the rendered readme). -/
structure VSXExtensionData where
  version : Option String := none
  description : Option String := none
  downloadUrl : Option String := none
  iconUrl : Option String := none
  readmeUrl : Option String := none
  readme : Option String := none
  installed : Bool := false
  deriving Repr, DecidableEq

/-- One extension record of the store, keyed by its stable id. -/
structure VSXExtension where
  id : String
  data : VSXExtensionData := {}
  deriving Repr, DecidableEq

/-- A partial field set applied onto a record by `VSXExtension.update`:
`none` means "field not provided". -/
structure VSXExtensionUpdate where
  version : Option String := none
  description : Option String := none
  downloadUrl : Option String := none
  iconUrl : Option String := none
  readmeUrl : Option String := none
  readme : Option String := none
  installed : Option Bool := none
  deriving Repr, DecidableEq

/-- Field-wise choice: take the update value when provided, keep the old
value otherwise. -/
def mergeField {α : Type} (upd old : Option α) : Option α :=
  match upd with
  | some v => some v
  | none => old

/-- Modelled from the spec: `VSXExtension.update` lives in
`vsx-extension.ts`, which is not among the sources; the spec states that
updates are merges, "field-wise overwrite-if-present, not whole-object
replace", and that no absent field of an update may be interpreted as
unset. -/
def VSXExtension.update (e : VSXExtension) (d : VSXExtensionUpdate) : VSXExtension :=
  { e with data :=
    { version := mergeField d.version e.data.version
      description := mergeField d.description e.data.description
      downloadUrl := mergeField d.downloadUrl e.data.downloadUrl
      iconUrl := mergeField d.iconUrl e.data.iconUrl
      readmeUrl := mergeField d.readmeUrl e.data.readmeUrl
      readme := mergeField d.readme e.data.readme
      installed := d.installed.getD e.data.installed } }

/-- `VSXExtensionFactory({ id })`: a fresh record holding just the id. -/
def VSXExtensionFactory (id : String) : VSXExtension := { id := id }

/-- One summary returned by the registry search endpoint. -/
structure VSXSearchEntry where
  publisher : String
  name : String
  version : Option String := none
  description : Option String := none
  downloadUrl : Option String := none
  iconUrl : Option String := none
  readmeUrl : Option String := none
  deriving Repr, DecidableEq

/-- The partial field set a search summary contributes to its record. -/
def VSXSearchEntry.toUpdate (e : VSXSearchEntry) : VSXExtensionUpdate :=
  { version := e.version
    description := e.description
    downloadUrl := e.downloadUrl
    iconUrl := e.iconUrl
    readmeUrl := e.readmeUrl }

/-- `data.publisher.toLowerCase() + . + data.name.toLowerCase()`. -/
def VSXSearchEntry.derivedId (e : VSXSearchEntry) : String :=
  e.publisher.toLower ++ "." ++ e.name.toLower

/-- Errors of the registry client: a typed not-found error
(`VSXResponseError` with status 404) or any other transport error. -/
inductive RegistryError where
  | notFound
  | transport (msg : String)
  deriving Repr, DecidableEq

/-- Events observable on the model. -/
inductive Event where
  | didChange
  | didChangeQuery (q : String)
  deriving Repr, DecidableEq

/-- One `console.error` log line, keyed by the extension id it concerns. -/
structure LogEntry where
  id : String
  msg : String
  deriving Repr, DecidableEq

/-- A plugin as reported by the host runtime
(`plugin.model.id`, `plugin.model.engine.type`). -/
structure Plugin where
  id : String
  engineType : String
  deriving Repr, DecidableEq

/-- The whole mutable state of `VSXExtensionsModel`: the query, the record
store (an association list with unique keys, standing for the `Map`), the
installed set, the search result set, and the current search epoch (the
cancellation token source). -/
structure ModelState where
  query : String := ""
  extensions : List (String × VSXExtension) := []
  installed : List String := []
  searchResult : List String := []
  searchEpoch : Nat := 0
  deriving Repr, DecidableEq

/-- The `Map` of the source has at most one entry per id; the association
list representing it keeps its keys nodup. -/
def keysNodup (s : ModelState) : Prop :=
  (s.extensions.map Prod.fst).Nodup

/-- Every stored record carries the id it is keyed under. -/
def recordIdInv (s : ModelState) : Prop :=
  ∀ kv ∈ s.extensions, (Prod.snd kv).id = Prod.fst kv

/-- `getExtension(id)`: look the record up in the store. -/
def ModelState.getExtension (s : ModelState) (id : String) : Option VSXExtension :=
  (s.extensions.find? (fun kv => kv.1 == id)).map Prod.snd

/-- `setExtension(id)`: return the existing record, or create one from the
factory and put it into the store. -/
def ModelState.setExtension (s : ModelState) (id : String) : VSXExtension × ModelState :=
  match s.getExtension id with
  | some e => (e, s)
  | none =>
      let e := VSXExtensionFactory id
      (e, { s with extensions := s.extensions ++ [(id, e)] })

/-- `this.getExtension(id)` followed by a mutation of the stored object:
replace the record keyed by `id` with its merge with `d`. -/
def ModelState.updateExtension (s : ModelState) (id : String) (d : VSXExtensionUpdate) : ModelState :=
  { s with extensions :=
      s.extensions.map (fun kv => if kv.1 = id then (kv.1, kv.2.update d) else kv) }

/-- `this.setExtension(id).update(data)`: create-if-absent then merge. -/
def ModelState.upsert (s : ModelState) (id : String) (d : VSXExtensionUpdate) : ModelState :=
  (s.setExtension id).2.updateExtension id d

/-- `Set.add`: append if not yet present (insertion-ordered set). -/
def addId (l : List String) (id : String) : List String :=
  if id ∈ l then l else l ++ [id]

/-- The query setter: a strict no-op when the value is unchanged, otherwise
store the value and fire exactly one query-change event. -/
def ModelState.setQuery (s : ModelState) (q : String) : ModelState × List Event :=
  if s.query = q then (s, [])
  else ({ s with query := q }, [Event.didChangeQuery q])

/-- The body of the debounced `updateSearchResult`: cancel the previous
cancellation token source and make a fresh one.  Returns the new state and
the epoch token handed to `doUpdateSearchResult`. -/
def ModelState.startSearchCycle (s : ModelState) : ModelState × Nat :=
  ({ s with searchEpoch := s.searchEpoch + 1 }, s.searchEpoch + 1)

/-- `token.isCancellationRequested` for a search epoch token. -/
def ModelState.isCancelled (s : ModelState) (token : Nat) : Bool :=
  token != s.searchEpoch

/-- One iteration of the result loop of `doUpdateSearchResult`: derive the
id, `setExtension(id).update(data)`, accumulate the id. -/
def searchResultStep (acc : ModelState × List String) (e : VSXSearchEntry) :
    ModelState × List String :=
  (acc.1.upsert e.derivedId e.toUpdate, addId acc.2 e.derivedId)

/-- `doUpdateSearchResult` from the moment the registry response arrives,
with the state at arrival time.  A rejection of `api.search` is re-raised
out of the `doChange` task (there is no catch in the source); a response
arriving on a cancelled token is dropped before any mutation; otherwise
every summary is upserted, the search result set is replaced, and a single
change event is fired after all mutations. -/
def doUpdateSearchResultArrive (s : ModelState) (token : Nat)
    (resp : Except RegistryError (List VSXSearchEntry)) :
    Except RegistryError (Option Unit) × ModelState × List Event :=
  match resp with
  | .error e => (.error e, s, [])
  | .ok entries =>
      if s.isCancelled token then (.ok none, s, [])
      else
        let r := entries.foldl searchResultStep (s, [])
        (.ok (some ()), { r.1 with searchResult := r.2 }, [Event.didChange])

/-- One iteration of the plugin loop of `updateInstalled`, over the
accumulator (state, new installed set, ids scheduled for refresh). -/
def updateInstalledStep (acc : ModelState × List String × List String) (p : Plugin) :
    ModelState × List String × List String :=
  if p.engineType = "vscode" then
    let s := { acc.1 with installed := acc.1.installed.erase p.id }
    let r := s.setExtension p.id
    (r.2, addId acc.2.1 r.1.id, acc.2.2 ++ [p.id])
  else acc

/-- The synchronous task of `updateInstalled`: walk the host-reported
plugins, collect the vscode-typed ids into a fresh installed set, schedule
a refresh for each of them and for every previously-installed id not seen
again, then replace the installed set immediately — the scheduled refresh
ids are returned still pending, no refresh response is consumed. -/
def updateInstalledTask (s : ModelState) (plugins : List Plugin) :
    ModelState × List String :=
  let r := plugins.foldl updateInstalledStep (s, [], [])
  ({ r.1 with installed := r.2.1 }, r.2.2 ++ r.1.installed)

/-- `updateInstalled`: the task wrapped in `doChange` with no token — on
completion a single change event fires after all mutations. -/
def updateInstalled (s : ModelState) (plugins : List Plugin) :
    ModelState × List String × List Event :=
  let r := updateInstalledTask s plugins
  (r.1, r.2, [Event.didChange])

/-- `refresh(id)` from the moment the `getExtension` response arrives.
On success the record is upserted and returned; a 404 returns the prior
record unchanged when it is marked installed and absent otherwise, without
logging; any other error is logged and yields absent.  It never throws. -/
def refreshArrive (s : ModelState) (id : String)
    (resp : Except RegistryError VSXExtensionUpdate) :
    Option VSXExtension × ModelState × List LogEntry :=
  match resp with
  | .ok data =>
      let r := s.setExtension id
      (some (r.1.update data), r.2.updateExtension id data, [])
  | .error .notFound =>
      match s.getExtension id with
      | some ext => if ext.data.installed then (some ext, s, []) else (none, s, [])
      | none => (none, s, [])
  | .error (.transport m) =>
      (none, s, [{ id := id, msg := m }])

/-- `resolve(id)` from the moment its responses arrive: `refresh(id)`,
then a thrown error when refresh yields absent; otherwise, when the record
has a readme url, the readme is fetched, compiled (`compile` stands for the
showdown-plus-sanitize pipeline, which may itself fail) and merged into the
record; a 404 of the fetch is swallowed silently, any other fetch or
rendering failure is logged but does not fail the resolve.  The whole runs
in `doChange` with no token: one change event on success, none on throw. -/
def resolveArrive (compile : String → Except String String)
    (s : ModelState) (id : String)
    (regResp : Except RegistryError VSXExtensionUpdate)
    (fetchResp : Except RegistryError String) :
    Except String VSXExtension × ModelState × List LogEntry × List Event :=
  let r := refreshArrive s id regResp
  match r.1 with
  | none => (.error ("Failed to resolve " ++ id ++ " extension."), r.2.1, r.2.2, [])
  | some ext =>
      match ext.data.readmeUrl with
      | none => (.ok ext, r.2.1, r.2.2, [Event.didChange])
      | some _ =>
          match fetchResp with
          | .ok raw =>
              match compile raw with
              | .ok readme =>
                  (.ok (ext.update { readme := some readme }),
                   r.2.1.updateExtension id { readme := some readme },
                   r.2.2, [Event.didChange])
              | .error m => (.ok ext, r.2.1, r.2.2 ++ [{ id := id, msg := m }], [Event.didChange])
          | .error .notFound => (.ok ext, r.2.1, r.2.2, [Event.didChange])
          | .error (.transport m) =>
              (.ok ext, r.2.1, r.2.2 ++ [{ id := id, msg := m }], [Event.didChange])

/-! The debounce controller (`p-debounce` with a 150 unit wait) is embedded
as a timed state machine: `pending` is the fire time of the scheduled call,
each effective query mutation resets it to its own time plus the wait, and
a pending call at or before the current time fires first. -/

/-- The debounce wait of `updateSearchResult`. -/
def debounceWait : Nat := 150

/-- State of the query debounce controller: the current query, the fire
time of the pending debounced call, and the search cycles fired so far as
(fire time, query used) pairs. -/
structure DebounceState where
  query : String := ""
  pending : Option Nat := none
  cycles : List (Nat × String) := []
  deriving Repr, DecidableEq

/-- Fire the pending debounced call if its time has come: one search cycle
runs with the query current at fire time. -/
def DebounceState.fireIfDue (s : DebounceState) (t : Nat) : DebounceState :=
  match s.pending with
  | some ft => if ft ≤ t then { s with pending := none, cycles := s.cycles ++ [(ft, s.query)] } else s
  | none => s

/-- The query setter as seen by the controller: a no-op on an equal value;
an effective mutation stores the value and, through the query-change event,
calls the debounced `updateSearchResult`, resetting the window. -/
def DebounceState.querySet (s : DebounceState) (t : Nat) (q : String) : DebounceState :=
  if s.query = q then s
  else { query := q, pending := some (t + debounceWait), cycles := s.cycles }

/-- A query mutation arriving at time `t`: time passes first (a due pending
call fires), then the setter runs. -/
def DebounceState.mutateQuery (s : DebounceState) (t : Nat) (q : String) : DebounceState :=
  (s.fireIfDue t).querySet t q

/-- Run a timed sequence of query mutations. -/
def DebounceState.runMutations (s : DebounceState) (ms : List (Nat × String)) : DebounceState :=
  ms.foldl (fun s m => s.mutateQuery m.1 m.2) s

/-- Let the quiescence window elapse with no further mutation: the pending
call, if any, fires. -/
def DebounceState.settle (s : DebounceState) : DebounceState :=
  match s.pending with
  | some ft => { s with pending := none, cycles := s.cycles ++ [(ft, s.query)] }
  | none => s

/-- A mutation sequence lies within one quiescence window of a previous
mutation `prev` when each step arrives strictly before the window of the
step before it elapses and writes a different value than that step wrote. -/
def wellSpaced : Nat × String → List (Nat × String) → Bool
  | _, [] => true
  | prev, m :: rest =>
      decide (m.1 < prev.1 + debounceWait) && (m.2 != prev.2) && wellSpaced m rest

/-- The record an upsert merges onto: the stored one, or a fresh factory
record when the id is absent. -/
def priorFor (s : ModelState) (id : String) : VSXExtension :=
  (s.getExtension id).getD (VSXExtensionFactory id)

/-- Claim C1: a search response arriving on a superseded epoch token is
discarded before any mutation: the store, the installed set and the search
result set are exactly as before, and no change event fires — whatever the
response is and however late it arrives. -/
theorem epoch_supersession (s : ModelState) (token : Nat)
    (resp : Except RegistryError (List VSXSearchEntry))
    (h : token ≠ s.searchEpoch) :
    (doUpdateSearchResultArrive s token resp).2.1 = s ∧
    (doUpdateSearchResultArrive s token resp).2.2 = [] := by
  cases resp with
  | error e => exact ⟨rfl, rfl⟩
  | ok entries =>
      simp [doUpdateSearchResultArrive, ModelState.isCancelled, bne_iff_ne, h]

theorem epoch_supersession_witness :
    (0 : Nat) ≠ ModelState.searchEpoch { searchEpoch := 1 } ∧
    ((doUpdateSearchResultArrive { searchEpoch := 1 } 0
        (.ok [{ publisher := "Acme", name := "Foo" }])).2.1 = { searchEpoch := 1 } ∧
     (doUpdateSearchResultArrive { searchEpoch := 1 } 0
        (.ok [{ publisher := "Acme", name := "Foo" }])).2.2 = []) :=
  ⟨by decide, epoch_supersession { searchEpoch := 1 } 0
      (.ok [{ publisher := "Acme", name := "Foo" }]) (by decide)⟩

/-- Claim C2, counterexample: a failing registry search is not caught
inside the search operation — even for the current, non-superseded token
the rejection of `api.search` propagates out of `doUpdateSearchResult`
(there is no try/catch in its body), so "the error is caught and logged
and no exception propagates past the search operation" is false. -/
theorem search_failure_not_caught_cex :
    doUpdateSearchResultArrive {} 0 (.error (.transport "ECONNREFUSED")) =
      (.error (.transport "ECONNREFUSED"), {}, []) := rfl

/-- Claim C2, amended: when the registry search call fails, the Search
Result Set and the Extension Record Store are left unchanged and no change
event fires, but the error is not caught or logged inside the search
operation — the rejection propagates to the caller of the search
operation. -/
theorem search_failure_propagates (s : ModelState) (token : Nat) (e : RegistryError) :
    doUpdateSearchResultArrive s token (.error e) = (.error e, s, []) := rfl

/-- Claim C6: `refresh(id)` on a not-found response returns the prior
record unchanged when it is marked installed; otherwise a not-found
response yields absent with no log and no exception; any other error is
logged and yields absent.  In every case the state is untouched. -/
theorem refresh_not_found (s : ModelState) (id : String) :
    (∀ e, s.getExtension id = some e → e.data.installed = true →
      refreshArrive s id (.error .notFound) = (some e, s, [])) ∧
    ((∀ e, s.getExtension id = some e → e.data.installed = false) →
      refreshArrive s id (.error .notFound) = (none, s, [])) ∧
    (∀ m, refreshArrive s id (.error (.transport m)) =
      (none, s, [{ id := id, msg := m }])) := by
  refine ⟨?_, ?_, fun m => rfl⟩
  · intro e he hi
    simp [refreshArrive, he, hi]
  · intro h
    cases hx : s.getExtension id with
    | none => simp [refreshArrive, hx]
    | some e => simp [refreshArrive, hx, h e hx]

theorem refresh_not_found_witness :
    ModelState.getExtension
        { extensions := [("a.b", { id := "a.b", data := { installed := true } })] } "a.b" =
      some { id := "a.b", data := { installed := true } } ∧
    VSXExtensionData.installed
        (VSXExtension.data { id := "a.b", data := { installed := true } }) = true ∧
    refreshArrive { extensions := [("a.b", { id := "a.b", data := { installed := true } })] }
        "a.b" (.error .notFound) =
      (some { id := "a.b", data := { installed := true } },
       { extensions := [("a.b", { id := "a.b", data := { installed := true } })] }, []) :=
  ⟨by decide, by decide,
    (refresh_not_found { extensions := [("a.b", { id := "a.b", data := { installed := true } })] }
        "a.b").1 { id := "a.b", data := { installed := true } } (by decide) (by decide)⟩

/-- Claim C10: setting the query to its current value is a complete no-op
on the model and on the debounce controller — no event, no state change, no
window reset; setting it to a different value changes only the stored
query, fires exactly one query-change event with the new value, and resets
the debounce window. -/
theorem query_setter_frame (s : ModelState) (q : String) (d : DebounceState) (t : Nat) :
    (s.query = q → s.setQuery q = (s, [])) ∧
    (s.query ≠ q → s.setQuery q = ({ s with query := q }, [Event.didChangeQuery q])) ∧
    (d.query = q → d.querySet t q = d) ∧
    (d.query ≠ q → d.querySet t q =
      { query := q, pending := some (t + debounceWait), cycles := d.cycles }) := by
  refine ⟨fun h => ?_, fun h => ?_, fun h => ?_, fun h => ?_⟩ <;>
    simp [ModelState.setQuery, DebounceState.querySet, h]

theorem query_setter_frame_witness :
    (ModelState.query {} = "" ∧ ModelState.setQuery {} "" = ({}, [])) ∧
    (ModelState.query {} ≠ "foo" ∧
      ModelState.setQuery {} "foo" = ({ query := "foo" }, [Event.didChangeQuery "foo"])) ∧
    (DebounceState.query {} ≠ "foo" ∧
      DebounceState.querySet {} 7 "foo" =
        { query := "foo", pending := some (7 + debounceWait), cycles := [] }) :=
  ⟨⟨by decide, (query_setter_frame {} "" {} 0).1 (by decide)⟩,
   ⟨by decide, (query_setter_frame {} "foo" {} 0).2.1 (by decide)⟩,
   ⟨by decide, (query_setter_frame {} "foo" {} 7).2.2.2 (by decide)⟩⟩

/-- Claim C7, counterexample: resolve is not the only operation that
surfaces a failure to its caller — a registry search whose call fails also
rejects past the search operation (there is no catch in
`doUpdateSearchResult`), here on the current token of a fresh model. -/
theorem resolve_not_only_failing_op_cex :
    doUpdateSearchResultArrive {} 0 (.error (.transport "socket hang up")) =
      (.error (.transport "socket hang up"), {}, []) ∧
    ({} : ModelState).searchEpoch = 0 := ⟨rfl, rfl⟩

/-- Claim C7, amended: whenever `refresh(id)` yields absent — in
particular for an unknown, never-installed id whose registry lookup 404s —
`resolve(id)` fails with a "Failed to resolve" error surfaced to its
direct caller, firing no change event; `refresh` itself never surfaces a
failure, but a failed registry search also propagates its rejection, so
resolve is not the only operation that can surface one. -/
theorem resolve_fails_when_absent (compile : String → Except String String)
    (s : ModelState) (id : String)
    (regResp : Except RegistryError VSXExtensionUpdate)
    (fetchResp : Except RegistryError String)
    (h : (refreshArrive s id regResp).1 = none) :
    (resolveArrive compile s id regResp fetchResp).1 =
      .error ("Failed to resolve " ++ id ++ " extension.") ∧
    (resolveArrive compile s id regResp fetchResp).2.2.2 = [] := by
  simp [resolveArrive, h]

theorem resolve_fails_when_absent_witness :
    (refreshArrive {} "a.b" (.error .notFound)).1 = none ∧
    ((resolveArrive (fun t => .ok t) {} "a.b" (.error .notFound) (.error .notFound)).1 =
        .error ("Failed to resolve " ++ "a.b" ++ " extension.") ∧
      (resolveArrive (fun t => .ok t) {} "a.b" (.error .notFound) (.error .notFound)).2.2.2 = []) :=
  ⟨by decide,
    resolve_fails_when_absent (fun t => .ok t) {} "a.b" (.error .notFound)
      (.error .notFound) (by decide)⟩

/-- Claim C8: when the extension detail fetch succeeds, `resolve(id)`
always succeeds whatever the readme fetch or the rendering does; a 404 on
the readme fetch is swallowed silently — no log, and the state is exactly
the state the refresh produced, so the readme field is left as refresh left
it; any other readme fetch failure is logged (when a readme url is
present) but resolve still succeeds with one change event. -/
theorem resolve_readme_tolerance (compile : String → Except String String)
    (s : ModelState) (id : String) (data : VSXExtensionUpdate)
    (fetchResp : Except RegistryError String) :
    (∃ e, (resolveArrive compile s id (.ok data) fetchResp).1 = .ok e) ∧
    (resolveArrive compile s id (.ok data) (.error .notFound) =
      (.ok ((s.setExtension id).1.update data),
       (s.setExtension id).2.updateExtension id data, [], [Event.didChange])) ∧
    ((((s.setExtension id).1.update data).data.readmeUrl).isSome = true →
      ∀ m, resolveArrive compile s id (.ok data) (.error (.transport m)) =
        (.ok ((s.setExtension id).1.update data),
         (s.setExtension id).2.updateExtension id data,
         [{ id := id, msg := m }], [Event.didChange])) := by
  refine ⟨?_, ?_, ?_⟩
  · cases hu : ((s.setExtension id).1.update data).data.readmeUrl with
    | none => simp [resolveArrive, refreshArrive, hu]
    | some u =>
        cases fetchResp with
        | error e =>
            cases e with
            | notFound => simp [resolveArrive, refreshArrive, hu]
            | transport m => simp [resolveArrive, refreshArrive, hu]
        | ok raw =>
            cases hc : compile raw with
            | ok readme => simp [resolveArrive, refreshArrive, hu, hc]
            | error m => simp [resolveArrive, refreshArrive, hu, hc]
  · cases hu : ((s.setExtension id).1.update data).data.readmeUrl with
    | none => simp [resolveArrive, refreshArrive, hu]
    | some u => simp [resolveArrive, refreshArrive, hu]
  · intro hu m
    cases hu2 : ((s.setExtension id).1.update data).data.readmeUrl with
    | none => rw [hu2] at hu; exact absurd hu (by simp)
    | some u => simp [resolveArrive, refreshArrive, hu2]

theorem resolve_readme_tolerance_witness :
    ((((ModelState.setExtension {} "a.b").1.update
        { readmeUrl := some "u" }).data.readmeUrl).isSome = true) ∧
    resolveArrive (fun t => .ok t) {} "a.b" (.ok { readmeUrl := some "u" })
        (.error (.transport "ETIMEDOUT")) =
      (.ok ((ModelState.setExtension {} "a.b").1.update { readmeUrl := some "u" }),
       (ModelState.setExtension {} "a.b").2.updateExtension "a.b" { readmeUrl := some "u" },
       [{ id := "a.b", msg := "ETIMEDOUT" }], [Event.didChange]) :=
  ⟨by decide,
    (resolve_readme_tolerance (fun t => .ok t) {} "a.b" { readmeUrl := some "u" }
        (.error (.transport "ETIMEDOUT"))).2.2 (by decide) "ETIMEDOUT"⟩

theorem find?_update_self (l : List (String × VSXExtension)) (id : String) (d : VSXExtensionUpdate) :
    (l.map (fun kv => if kv.1 = id then (kv.1, kv.2.update d) else kv)).find?
        (fun kv => kv.1 == id)
      = (l.find? (fun kv => kv.1 == id)).map (fun kv => (kv.1, kv.2.update d)) := by
  induction l with
  | nil => rfl
  | cons kv rest ih =>
      by_cases h : kv.1 = id
      · have hb : (kv.1 == id) = true := beq_iff_eq.2 h
        simp [List.find?, h, hb]
      · have hb : (kv.1 == id) = false := by simp [h]
        simp [List.find?, h, hb, ih]

theorem find?_update_ne (l : List (String × VSXExtension)) (id j : String)
    (d : VSXExtensionUpdate) (h : j ≠ id) :
    (l.map (fun kv => if kv.1 = id then (kv.1, kv.2.update d) else kv)).find?
        (fun kv => kv.1 == j)
      = l.find? (fun kv => kv.1 == j) := by
  induction l with
  | nil => rfl
  | cons kv rest ih =>
      by_cases hk : kv.1 = id
      · have hj : (kv.1 == j) = false := by
          simp only [beq_eq_false_iff_ne, ne_eq, hk]
          exact fun hc => h hc.symm
        have hij : (id == j) = false := hk ▸ hj
        simp [List.find?, hk, hj, hij, ih]
      · by_cases hj : kv.1 = j
        · have hb : (kv.1 == j) = true := beq_iff_eq.2 hj
          simp [List.find?, hk, hb]
        · have hb : (kv.1 == j) = false := by simp [hj]
          simp [List.find?, hk, hb, ih]

theorem getExtension_updateExtension_self (s : ModelState) (id : String) (d : VSXExtensionUpdate) :
    (s.updateExtension id d).getExtension id =
      (s.getExtension id).map (fun e => e.update d) := by
  simp only [ModelState.getExtension, ModelState.updateExtension, find?_update_self,
    Option.map_map]
  rfl

theorem getExtension_updateExtension_ne (s : ModelState) (id j : String)
    (d : VSXExtensionUpdate) (h : j ≠ id) :
    (s.updateExtension id d).getExtension j = s.getExtension j := by
  simp only [ModelState.getExtension, ModelState.updateExtension, find?_update_ne _ _ _ _ h]

theorem setExtension_of_some (s : ModelState) (id : String) (e : VSXExtension)
    (h : s.getExtension id = some e) : s.setExtension id = (e, s) := by
  simp [ModelState.setExtension, h]

theorem setExtension_of_none (s : ModelState) (id : String)
    (h : s.getExtension id = none) :
    s.setExtension id =
      (VSXExtensionFactory id,
       { s with extensions := s.extensions ++ [(id, VSXExtensionFactory id)] }) := by
  simp [ModelState.setExtension, h]

theorem find?_append_single (l : List (String × VSXExtension)) (id j : String)
    (e : VSXExtension) :
    (l ++ [(id, e)]).find? (fun kv => kv.1 == j) =
      (l.find? (fun kv => kv.1 == j)).or (if id = j then some (id, e) else none) := by
  induction l with
  | nil =>
      by_cases h : id = j
      · have hb : (id == j) = true := beq_iff_eq.2 h
        simp [List.find?, h, hb]
      · have hb : (id == j) = false := by simp [h]
        simp [List.find?, h, hb]
  | cons kv rest ih =>
      by_cases hk : kv.1 = j
      · have hb : (kv.1 == j) = true := beq_iff_eq.2 hk
        simp [List.find?, hb]
      · have hb : (kv.1 == j) = false := by simp [hk]
        simp [List.find?, hb, ih]

theorem getExtension_append_single (s : ModelState) (id j : String) (e : VSXExtension) :
    ModelState.getExtension { s with extensions := s.extensions ++ [(id, e)] } j =
      (s.getExtension j).or (if id = j then some e else none) := by
  simp only [ModelState.getExtension]
  rw [find?_append_single]
  cases hf : s.extensions.find? (fun kv => kv.1 == j) with
  | some kv => simp [hf]
  | none =>
      by_cases h : id = j
      · simp [hf, h]
      · simp [hf, h]

theorem getExtension_setExtension_self (s : ModelState) (id : String) :
    (s.setExtension id).1 = priorFor s id ∧
    (s.setExtension id).2.getExtension id = some (priorFor s id) := by
  cases hx : s.getExtension id with
  | some e =>
      rw [setExtension_of_some s id e hx]
      simp [priorFor, hx]
  | none =>
      rw [setExtension_of_none s id hx]
      simp [priorFor, hx, getExtension_append_single]

theorem getExtension_setExtension_ne (s : ModelState) (id j : String) (h : j ≠ id) :
    (s.setExtension id).2.getExtension j = s.getExtension j := by
  cases hx : s.getExtension id with
  | some e => rw [setExtension_of_some s id e hx]
  | none =>
      rw [setExtension_of_none s id hx]
      have hne : ¬ id = j := fun hc => h hc.symm
      rw [getExtension_append_single]
      simp [hne]

theorem getExtension_upsert_self (s : ModelState) (id : String) (d : VSXExtensionUpdate) :
    (s.upsert id d).getExtension id = some ((priorFor s id).update d) := by
  rw [ModelState.upsert, getExtension_updateExtension_self,
    (getExtension_setExtension_self s id).2]
  rfl

theorem getExtension_upsert_ne (s : ModelState) (id j : String) (d : VSXExtensionUpdate)
    (h : j ≠ id) :
    (s.upsert id d).getExtension j = s.getExtension j := by
  rw [ModelState.upsert, getExtension_updateExtension_ne _ _ _ _ h,
    getExtension_setExtension_ne _ _ _ h]

theorem keysNodup_updateExtension (s : ModelState) (id : String) (d : VSXExtensionUpdate)
    (h : keysNodup s) : keysNodup (s.updateExtension id d) := by
  have : (s.updateExtension id d).extensions.map Prod.fst = s.extensions.map Prod.fst := by
    simp only [ModelState.updateExtension]
    rw [List.map_map]
    refine List.map_congr_left (fun kv _ => ?_)
    by_cases hk : kv.1 = id <;> simp [hk]
  unfold keysNodup
  rw [this]
  exact h

theorem keysNodup_setExtension (s : ModelState) (id : String) (h : keysNodup s) :
    keysNodup (s.setExtension id).2 := by
  cases hx : s.getExtension id with
  | some e => rw [setExtension_of_some s id e hx]; exact h
  | none =>
      rw [setExtension_of_none s id hx]
      unfold keysNodup at h ⊢
      have hfind : s.extensions.find? (fun kv => kv.1 == id) = none := by
        cases hf : s.extensions.find? (fun kv => kv.1 == id) with
        | none => rfl
        | some kv =>
            exact absurd hx (by simp [ModelState.getExtension, hf])
      have hid : id ∉ s.extensions.map Prod.fst := by
        intro hmem
        rcases List.mem_map.1 hmem with ⟨kv, hkv, hfst⟩
        have := List.find?_eq_none.1 hfind kv hkv
        exact this (by simp [beq_iff_eq, hfst])
      have : (s.extensions.map Prod.fst ++ [id]).Nodup := by
        rw [List.nodup_append]
        refine ⟨h, List.nodup_singleton id, fun a ha hb => ?_⟩
        rw [List.mem_singleton.1 hb] at ha
        exact hid ha
      simpa using this

theorem keysNodup_upsert (s : ModelState) (id : String) (d : VSXExtensionUpdate)
    (h : keysNodup s) : keysNodup (s.upsert id d) :=
  keysNodup_updateExtension _ _ _ (keysNodup_setExtension _ _ h)

/-- Claim C3: upserting is a field-wise merge onto the single record for
the id — an existing record becomes its merge with the update, an absent
id gets a fresh record carrying just the provided fields, the store keeps
at most one record per id, and in particular upserting a description onto
a record that already holds a version yields one record with both set. -/
theorem upsert_merge (s : ModelState) (id : String) (d : VSXExtensionUpdate) :
    (∀ e, s.getExtension id = some e →
        (s.upsert id d).getExtension id = some (e.update d)) ∧
    (s.getExtension id = none →
        (s.upsert id d).getExtension id = some ((VSXExtensionFactory id).update d)) ∧
    (keysNodup s → keysNodup (s.upsert id d)) ∧
    (∀ e, s.getExtension id = some e → e.data.version = some "1.0" →
        ∃ e2, (s.upsert id { description := some "x" }).getExtension id = some e2 ∧
          e2.data.version = some "1.0" ∧ e2.data.description = some "x") := by
  refine ⟨?_, ?_, keysNodup_upsert s id d, ?_⟩
  · intro e he
    rw [getExtension_upsert_self]
    simp [priorFor, he]
  · intro he
    rw [getExtension_upsert_self]
    simp [priorFor, he]
  · intro e he hv
    refine ⟨e.update { description := some "x" }, ?_, ?_, rfl⟩
    · rw [getExtension_upsert_self]
      simp [priorFor, he]
    · simpa [VSXExtension.update, mergeField] using hv

theorem upsert_merge_witness :
    ModelState.getExtension
        { extensions := [("a.b", { id := "a.b", data := { version := some "1.0" } })] } "a.b" =
      some { id := "a.b", data := { version := some "1.0" } } ∧
    VSXExtensionData.version
        (VSXExtension.data { id := "a.b", data := { version := some "1.0" } }) = some "1.0" ∧
    ∃ e2,
      (ModelState.upsert
          { extensions := [("a.b", { id := "a.b", data := { version := some "1.0" } })] }
          "a.b" { description := some "x" }).getExtension "a.b" = some e2 ∧
        e2.data.version = some "1.0" ∧ e2.data.description = some "x" :=
  ⟨by decide, by decide,
    (upsert_merge { extensions := [("a.b", { id := "a.b", data := { version := some "1.0" } })] }
        "a.b" { description := some "x" }).2.2.2
      { id := "a.b", data := { version := some "1.0" } } (by decide) (by decide)⟩

theorem mem_addId (l : List String) (a x : String) : x ∈ addId l a ↔ x ∈ l ∨ x = a := by
  unfold addId
  by_cases h : a ∈ l
  · simp only [h, if_true]
    exact ⟨Or.inl, fun hx => hx.elim id (fun he => he ▸ h)⟩
  · simp [h]

theorem recordIdInv_setExtension (s : ModelState) (id : String) (h : recordIdInv s) :
    recordIdInv (s.setExtension id).2 := by
  cases hx : s.getExtension id with
  | some e => rw [setExtension_of_some s id e hx]; exact h
  | none =>
      rw [setExtension_of_none s id hx]
      intro kv hkv
      rcases List.mem_append.1 hkv with hl | hr
      · exact h kv hl
      · rw [List.mem_singleton.1 hr]; rfl

theorem setExtension_fst_id (s : ModelState) (id : String) (h : recordIdInv s) :
    (s.setExtension id).1.id = id := by
  cases hx : s.getExtension id with
  | some e =>
      rw [setExtension_of_some s id e hx]
      rcases Option.map_eq_some'.1 hx with ⟨kv, hf, hsnd⟩
      have hmem := List.mem_of_find?_eq_some hf
      have hpred := List.find?_some hf
      have hkey : kv.1 = id := by simpa [beq_iff_eq] using hpred
      rw [← hsnd, h kv hmem, hkey]
  | none => rw [setExtension_of_none s id hx]; rfl

theorem foldl_installedStep_mem (plugins : List Plugin)
    (acc : ModelState × List String × List String) (h : recordIdInv acc.1) (id : String) :
    id ∈ (plugins.foldl updateInstalledStep acc).2.1 ↔
      id ∈ acc.2.1 ∨ ∃ p ∈ plugins, p.engineType = "vscode" ∧ p.id = id := by
  induction plugins generalizing acc with
  | nil => simp
  | cons p rest ih =>
      rw [List.foldl_cons]
      by_cases hp : p.engineType = "vscode"
      · have hinv : recordIdInv { acc.1 with installed := acc.1.installed.erase p.id } := h
        have hstep : updateInstalledStep acc p =
            (({ acc.1 with installed := acc.1.installed.erase p.id }.setExtension p.id).2,
             addId acc.2.1
               (({ acc.1 with installed := acc.1.installed.erase p.id }.setExtension p.id).1.id),
             acc.2.2 ++ [p.id]) := by
          simp [updateInstalledStep, hp]
        have hid := setExtension_fst_id
          { acc.1 with installed := acc.1.installed.erase p.id } p.id hinv
        have hinv2 : recordIdInv (updateInstalledStep acc p).1 := by
          rw [hstep]
          exact recordIdInv_setExtension _ _ hinv
        rw [ih _ hinv2, hstep]
        simp only [mem_addId, hid, List.exists_mem_cons_iff, hp, true_and]
        tauto
      · have hstep : updateInstalledStep acc p = acc := by
          simp [updateInstalledStep, hp]
        rw [ih _ (by rw [hstep]; exact h), hstep]
        simp only [List.exists_mem_cons_iff, hp, false_and, false_or]

/-- Claim C4: after the synchronous part of a reconciliation pass the
installed set is wholesale-replaced: an id is installed exactly when the
host reports a plugin of engine type vscode with that id.  The function
consumes no refresh response at all — the scheduled refresh ids are
returned still pending — so the replacement does not wait for any of the
concurrently issued refresh calls, and the wrapping `updateInstalled`
fires its single change event only after the replacement. -/
theorem installed_replace (s : ModelState) (plugins : List Plugin) (h : recordIdInv s) :
    (∀ id, id ∈ (updateInstalledTask s plugins).1.installed ↔
      ∃ p ∈ plugins, p.engineType = "vscode" ∧ p.id = id) ∧
    updateInstalled s plugins =
      ((updateInstalledTask s plugins).1, (updateInstalledTask s plugins).2,
       [Event.didChange]) := by
  refine ⟨fun id => ?_, rfl⟩
  have := foldl_installedStep_mem plugins (s, [], []) h id
  simp only [updateInstalledTask]
  simpa using this

theorem installed_replace_witness :
    recordIdInv {} ∧
    ("a.b" ∈ (updateInstalledTask {}
        [{ id := "a.b", engineType := "vscode" },
         { id := "c.d", engineType := "theiaPlugin" }]).1.installed ↔
      ∃ p ∈ [({ id := "a.b", engineType := "vscode" } : Plugin),
             { id := "c.d", engineType := "theiaPlugin" }],
        p.engineType = "vscode" ∧ p.id = "a.b") :=
  ⟨fun kv hkv => absurd hkv (List.not_mem_nil kv),
    (installed_replace {}
      [{ id := "a.b", engineType := "vscode" },
       { id := "c.d", engineType := "theiaPlugin" }]
      (fun kv hkv => absurd hkv (List.not_mem_nil kv))).1 "a.b"⟩

theorem foldl_searchStep_snd (entries : List VSXSearchEntry) (s : ModelState)
    (acc : List String) :
    (entries.foldl searchResultStep (s, acc)).2 =
      entries.foldl (fun l e => addId l e.derivedId) acc := by
  induction entries generalizing s acc with
  | nil => rfl
  | cons e rest ih =>
      simp only [List.foldl_cons, searchResultStep]
      exact ih _ _

theorem mem_foldl_addId (ids : List String) (acc : List String) (x : String) :
    x ∈ ids.foldl addId acc ↔ x ∈ acc ∨ x ∈ ids := by
  induction ids generalizing acc with
  | nil => simp
  | cons i rest ih =>
      rw [List.foldl_cons, ih, mem_addId]
      simp only [List.mem_cons]
      tauto

theorem foldl_searchStep_frame (entries : List VSXSearchEntry) (s : ModelState)
    (acc : List String) (j : String) (h : ∀ e ∈ entries, e.derivedId ≠ j) :
    ((entries.foldl searchResultStep (s, acc)).1).getExtension j = s.getExtension j := by
  induction entries generalizing s acc with
  | nil => rfl
  | cons e rest ih =>
      simp only [List.foldl_cons, searchResultStep]
      rw [ih _ _ (fun e' he' => h e' (List.mem_cons_of_mem e he'))]
      exact getExtension_upsert_ne _ _ _ _
        (fun hc => h e (List.mem_cons_self e rest) hc.symm)

theorem foldl_searchStep_presence (entries : List VSXSearchEntry) (s : ModelState)
    (acc : List String) (j : String)
    (h : (s.getExtension j).isSome = true ∨ ∃ e ∈ entries, e.derivedId = j) :
    (((entries.foldl searchResultStep (s, acc)).1).getExtension j).isSome = true := by
  induction entries generalizing s acc with
  | nil =>
      rcases h with h | h
      · exact h
      · simp at h
  | cons e rest ih =>
      simp only [List.foldl_cons, searchResultStep]
      by_cases hj : e.derivedId = j
      · refine ih _ _ (Or.inl ?_)
        rw [← hj, getExtension_upsert_self]
        rfl
      · refine ih _ _ ?_
        rcases h with h | ⟨e', he', hid⟩
        · left
          rw [getExtension_upsert_ne _ _ _ _ (fun hc => hj hc.symm)]
          exact h
        · rcases List.mem_cons.1 he' with he | he
          · exact absurd (he ▸ hid) hj
          · exact Or.inr ⟨e', he, hid⟩

theorem foldl_searchStep_fields (entries : List VSXSearchEntry) (s : ModelState)
    (acc : List String) (hnd : (entries.map VSXSearchEntry.derivedId).Nodup) :
    ∀ e ∈ entries,
      ((entries.foldl searchResultStep (s, acc)).1).getExtension e.derivedId =
        some ((priorFor s e.derivedId).update e.toUpdate) := by
  induction entries generalizing s acc with
  | nil => intro e he; simp at he
  | cons e0 rest ih =>
      have hnotin : e0.derivedId ∉ rest.map VSXSearchEntry.derivedId :=
        (List.nodup_cons.1 (by simpa using hnd)).1
      have hrest : (rest.map VSXSearchEntry.derivedId).Nodup :=
        (List.nodup_cons.1 (by simpa using hnd)).2
      intro e he
      rcases List.mem_cons.1 he with he | he
      · subst he
        simp only [List.foldl_cons, searchResultStep]
        rw [foldl_searchStep_frame rest _ _ _ (fun e' he' hc =>
          hnotin (by rw [← hc]; exact List.mem_map_of_mem VSXSearchEntry.derivedId he'))]
        exact getExtension_upsert_self _ _ _
      · have hne : e.derivedId ≠ e0.derivedId := by
          intro hc
          exact hnotin (hc ▸ List.mem_map_of_mem VSXSearchEntry.derivedId he)
        simp only [List.foldl_cons, searchResultStep]
        rw [ih _ _ hrest e he]
        have : priorFor (s.upsert e0.derivedId e0.toUpdate) e.derivedId =
            priorFor s e.derivedId := by
          unfold priorFor
          rw [getExtension_upsert_ne _ _ _ _ hne]
        rw [this]

/-- Claim C5: a successful search on the current epoch token commits: each
summary is upserted under the id derived as lowercased publisher dot
lowercased name, the search result set is replaced with exactly the set of
derived ids, each derived id has a record in the store, with distinct
derived ids each record is the merge of the summary fields onto the prior
record, and a single change event fires after the mutations. -/
theorem search_commit (s : ModelState) (entries : List VSXSearchEntry) :
    (doUpdateSearchResultArrive s s.searchEpoch (.ok entries)).1 = .ok (some ()) ∧
    (doUpdateSearchResultArrive s s.searchEpoch (.ok entries)).2.2 = [Event.didChange] ∧
    (∀ id, id ∈ (doUpdateSearchResultArrive s s.searchEpoch (.ok entries)).2.1.searchResult ↔
      ∃ e ∈ entries, e.derivedId = id) ∧
    (∀ e ∈ entries,
      (((doUpdateSearchResultArrive s s.searchEpoch (.ok entries)).2.1).getExtension
        e.derivedId).isSome = true) ∧
    ((entries.map VSXSearchEntry.derivedId).Nodup →
      ∀ e ∈ entries,
        ((doUpdateSearchResultArrive s s.searchEpoch (.ok entries)).2.1).getExtension
            e.derivedId =
          some ((priorFor s e.derivedId).update e.toUpdate)) := by
  have hc : s.isCancelled s.searchEpoch = false := by
    simp [ModelState.isCancelled]
  simp only [doUpdateSearchResultArrive, hc, Bool.false_eq_true, if_false]
  refine ⟨trivial, trivial, fun id => ?_, fun e he => ?_, fun hnd e he => ?_⟩
  · show id ∈ (entries.foldl searchResultStep (s, [])).2 ↔ _
    rw [foldl_searchStep_snd, ← List.foldl_map, mem_foldl_addId]
    simp [List.mem_map, eq_comm]
  · show (ModelState.getExtension _ e.derivedId).isSome = true
    exact foldl_searchStep_presence entries s [] e.derivedId
      (Or.inr ⟨e, he, rfl⟩)
  · show ModelState.getExtension _ e.derivedId = _
    exact foldl_searchStep_fields entries s [] hnd e he

theorem search_commit_witness :
    (([{ publisher := "Acme", name := "Foo" }] :
        List VSXSearchEntry).map VSXSearchEntry.derivedId).Nodup ∧
    ({ publisher := "Acme", name := "Foo" } : VSXSearchEntry) ∈
      [({ publisher := "Acme", name := "Foo" } : VSXSearchEntry)] ∧
    (VSXSearchEntry.derivedId { publisher := "Acme", name := "Foo" } ∈
        (doUpdateSearchResultArrive {} 0
          (.ok [{ publisher := "Acme", name := "Foo" }])).2.1.searchResult ↔
      ∃ e ∈ [({ publisher := "Acme", name := "Foo" } : VSXSearchEntry)],
        e.derivedId = VSXSearchEntry.derivedId { publisher := "Acme", name := "Foo" }) ∧
    (doUpdateSearchResultArrive {} 0
        (.ok [{ publisher := "Acme", name := "Foo" }])).2.1.getExtension
        (VSXSearchEntry.derivedId { publisher := "Acme", name := "Foo" }) =
      some ((priorFor {} (VSXSearchEntry.derivedId { publisher := "Acme", name := "Foo" })).update
        (VSXSearchEntry.toUpdate { publisher := "Acme", name := "Foo" })) :=
  ⟨by simp, List.mem_singleton_self _,
   (search_commit {} [{ publisher := "Acme", name := "Foo" }]).2.2.1 _,
   (search_commit {} [{ publisher := "Acme", name := "Foo" }]).2.2.2.2 (by simp)
     { publisher := "Acme", name := "Foo" } (List.mem_singleton_self _)⟩

theorem debounce_run_aux (ms : List (Nat × String)) (prev : Nat × String) (s : DebounceState)
    (hq : s.query = prev.2) (hp : s.pending = some (prev.1 + debounceWait))
    (hw : wellSpaced prev ms = true) :
    (s.runMutations ms).settle =
      { query := (ms.getLastD prev).2, pending := none,
        cycles := s.cycles ++ [((ms.getLastD prev).1 + debounceWait, (ms.getLastD prev).2)] } := by
  induction ms generalizing prev s with
  | nil =>
      simp only [DebounceState.runMutations, List.foldl_nil, List.getLastD]
      simp [DebounceState.settle, hp, hq]
  | cons m rest ih =>
      simp only [wellSpaced, Bool.and_eq_true, decide_eq_true_eq, bne_iff_ne] at hw
      obtain ⟨⟨h1, h2⟩, h3⟩ := hw
      have hfire : s.mutateQuery m.1 m.2 =
          { query := m.2, pending := some (m.1 + debounceWait), cycles := s.cycles } := by
        unfold DebounceState.mutateQuery
        have hs : s.fireIfDue m.1 = s := by
          simp [DebounceState.fireIfDue, hp, Nat.not_le.2 h1]
        rw [hs]
        have hne : ¬ s.query = m.2 := by rw [hq]; exact fun hc => h2 hc.symm
        simp [DebounceState.querySet, hne]
      simp only [DebounceState.runMutations, List.foldl_cons]
      rw [show List.foldl (fun s m => s.mutateQuery m.1 m.2) (s.mutateQuery m.1 m.2) rest =
            DebounceState.runMutations (s.mutateQuery m.1 m.2) rest from rfl,
          hfire, ih m _ rfl rfl h3, List.getLastD_cons]

/-- Claim C9: starting from a quiescent controller, a burst of query
mutations in which every mutation writes a new value and arrives strictly
before the 150 unit window of the previous one elapses produces, once the
window finally elapses, exactly one search cycle, and that cycle uses the
last query value written. -/
theorem debounce_coalescing (s0 : DebounceState) (m : Nat × String)
    (rest : List (Nat × String)) (hpend : s0.pending = none) (hcyc : s0.cycles = [])
    (heff : m.2 ≠ s0.query) (hw : wellSpaced m rest = true) :
    (s0.runMutations (m :: rest)).settle =
      { query := (rest.getLastD m).2, pending := none,
        cycles := [((rest.getLastD m).1 + debounceWait, (rest.getLastD m).2)] } := by
  have hfirst : s0.mutateQuery m.1 m.2 =
      { query := m.2, pending := some (m.1 + debounceWait), cycles := s0.cycles } := by
    unfold DebounceState.mutateQuery
    have hs : s0.fireIfDue m.1 = s0 := by simp [DebounceState.fireIfDue, hpend]
    rw [hs]
    have hne : ¬ s0.query = m.2 := fun hc => heff hc.symm
    simp [DebounceState.querySet, hne]
  simp only [DebounceState.runMutations, List.foldl_cons]
  rw [show List.foldl (fun s m => s.mutateQuery m.1 m.2) (s0.mutateQuery m.1 m.2) rest =
        DebounceState.runMutations (s0.mutateQuery m.1 m.2) rest from rfl,
      hfirst, debounce_run_aux rest m _ rfl rfl hw]
  simp [hcyc]

theorem debounce_coalescing_witness :
    DebounceState.pending {} = none ∧ DebounceState.cycles {} = [] ∧
    ("f" ≠ DebounceState.query {}) ∧
    wellSpaced (0, "f") [(100, "fo"), (199, "foo")] = true ∧
    (DebounceState.runMutations {} [(0, "f"), (100, "fo"), (199, "foo")]).settle =
      { query := "foo", pending := none, cycles := [(349, "foo")] } :=
  ⟨rfl, rfl, by decide, by decide,
    debounce_coalescing {} (0, "f") [(100, "fo"), (199, "foo")] rfl rfl
      (by decide) (by decide)⟩

end VsxRegistry
